import Mathlib

/-!
# Verification of the go-daly-bms protocol engine

Shallow embedding of the Daly BMS serial client (packages `pkg/bms` and
`internal/bms`, which are near-identical copies) together with proofs of the
specification claims about it.

Modelling conventions:
* a Go `byte` is a `Nat` that is `< 256` (hypotheses state the bound where it
  matters; helpers apply `% 256` exactly where the Go type system would);
* a Go hex string is a list of hex digits, each a `Nat < 16`;
* Go `float64` measurement values are modelled as exact numbers (`Int`, `ℚ`);
* Go maps with sequential keys `1, 2, 3, ...` are modelled as lists, position
  `p` of the list holding the value of key `p + 1`;
* the serial transport is an oracle: for the dispatcher, a function from the
  attempt index to that attempt's outcome.
-/

/-- Model of `computeCRC` (utils.go): sums all bytes into a `uint32` accumulator and
returns the low byte of the sum.  The `% 4294967296` mirrors the `uint32`
wrap-around; `% 256` on the entry mirrors the `byte` type of the input. -/
def computeCRC (message : List Nat) : Nat :=
  (List.foldl (fun sum singleByte => (sum + singleByte % 256) % 4294967296) 0 message) % 256

/-- Model of `decodeHexString` (utils.go) on the digit level: pairs of hex digits become
bytes.  A trailing unpaired digit is dropped (the Go code only ever decodes
even-length hex strings). -/
def decodeHexDigits : List Nat → List Nat
  | d1 :: d2 :: rest => (d1 % 16 * 16 + d2 % 16) :: decodeHexDigits rest
  | _ => []

/-- The two hex digits that `fmt.Sprintf "%02x"` produces for a byte. -/
def byteToHexDigits (b : Nat) : List Nat :=
  [b % 256 / 16, b % 16]

/-- Model of `bigEndianToUint64` (utils.go): folds the bytes with
`val = (val << 8) | uint64(b)`.  The shift wraps modulo `2^64`; since the low
8 bits of the shifted value are zero, the bitwise or is addition. -/
def bigEndianToUint64Fold (val : Nat) : List Nat → Nat
  | [] => val
  | b :: rest => bigEndianToUint64Fold (val * 256 % 18446744073709551616 + b % 256) rest

def bigEndianToUint64 (data : List Nat) : Nat :=
  bigEndianToUint64Fold 0 data

/-- The mathematical big-endian value of a byte sequence (claim-side reading of
"the payload interpreted as one big-endian unsigned integer"). -/
def bigEndianValueFold (val : Nat) : List Nat → Nat
  | [] => val
  | b :: rest => bigEndianValueFold (val * 256 + b) rest

def bigEndianValue (data : List Nat) : Nat :=
  bigEndianValueFold 0 data

/-- Least-significant-bit-first binary digits of `v`, with explicit fuel so the
definition is structural (fuel `v` is always enough since the value halves). -/
def lsbBitsGo (fuel v : Nat) : List Bool :=
  match fuel with
  | 0 => []
  | Nat.succ f => if v = 0 then [] else decide (v % 2 = 1) :: lsbBitsGo f (v / 2)

def lsbBits (v : Nat) : List Bool :=
  lsbBitsGo v v

/-- Result of `fmt.Sprintf "%b"` of a value, as a list of bits, most significant first:
minimal representation, the single character `0` for the value zero. -/
def binaryStringOf (v : Nat) : List Bool :=
  if v = 0 then [false] else (lsbBits v).reverse

/-- Model of `StatusData` (internal/bms): decoded per-status fields.  Counts come from
signed bytes, hence `Int`. -/
structure StatusData where
  numberOfCells : Int
  numberOfTemperatureSensors : Int
  isChargerRunning : Bool
  isLoadRunning : Bool
  states : List (String × Bool)
  cycleCount : Int
deriving DecidableEq

/-- The client state (`DalyBMS` / `DalyBMSIstance`): the serial port handle is
modelled by whether it is non-nil. -/
structure DalyBMS where
  serialPortOpen : Bool
  requestRetries : Nat
  address : Nat
  latestStatus : Option StatusData
deriving DecidableEq

/-- The two status fields that paginated queries use (the Go code passes them
as the strings "cells" and "temperature_sensors"; any other string is the
unreachable "unknown field" branch). -/
inductive StatusField where
  | cells
  | temperatureSensors
deriving DecidableEq

/-- Ceiling division `⌈a / b⌉` for a positive divisor, matching
`int(math.Ceil(float64(a) / float64(b)))` on the small exact counts used. -/
def ceilDivInt (a b : Int) : Int :=
  Int.ediv (a + b - 1) b

/-- Model of `calculateNumberOfResponses` (utils.go). -/
def calculateNumberOfResponses (bms : DalyBMS) (statusField : StatusField)
    (itemCountPerFrame : Nat) : Except String Int :=
  match bms.latestStatus with
  | none => Except.error "getStatus must be called before retrieving the field"
  | some st =>
    match statusField with
    | StatusField.cells =>
      if bms.address = 8 then Except.ok 16
      else Except.ok (ceilDivInt st.numberOfCells itemCountPerFrame)
    | StatusField.temperatureSensors =>
      if bms.address = 8 then Except.ok 3
      else Except.ok (ceilDivInt st.numberOfTemperatureSensors itemCountPerFrame)

/-- Big-endian signed 16-bit value of two bytes (`binary.Read` of an `int16`). -/
def int16OfBytes (hi lo : Nat) : Int :=
  let v : Nat := hi % 256 * 256 + lo % 256
  if v < 32768 then (v : Int) else (v : Int) - 65536

/-- Signed value of one byte (`binary.Read` of an `int8`). -/
def int8OfByte (b : Nat) : Int :=
  if b % 256 < 128 then ((b % 256 : Nat) : Int) else ((b % 256 : Nat) : Int) - 256

/-- Inner item loop of `splitFramesForData` (utils.go): reads up to
`itemsPerFrame` items from the byte reader over `data`, appending each to the
accumulated results; a failed `binary.Read` breaks out (returned flag
`false`); reaching `needed` results returns at once (flag `true`). -/
def readItems (statusField : StatusField) (fuel : Nat) (data : List Nat)
    (results : List Int) (needed : Int) : List Int × Bool :=
  match fuel with
  | 0 => (results, false)
  | Nat.succ n =>
    match statusField, data with
    | StatusField.cells, hi :: lo :: rest =>
      let results2 := results ++ [int16OfBytes hi lo]
      if (results2.length : Int) = needed then (results2, true)
      else readItems StatusField.cells n rest results2 needed
    | StatusField.temperatureSensors, b :: rest =>
      let results2 := results ++ [int8OfByte b]
      if (results2.length : Int) = needed then (results2, true)
      else readItems StatusField.temperatureSensors n rest results2 needed
    | _, _ => (results, false)

/-- Outer frame loop of `splitFramesForData`: frames shorter than one byte are
skipped; otherwise the first (page-index) byte is dropped (it is only used for
a log line, which has no effect on the result) and the items of the rest are
consumed; an early return inside the item loop ends the walk. -/
def splitLoop (statusField : StatusField) (itemsPerFrame : Nat) (needed : Int) :
    List (List Nat) → List Int → List Int
  | [], results => results
  | frame :: rest, results =>
    match frame with
    | [] => splitLoop statusField itemsPerFrame needed rest results
    | _ :: data =>
      let r := readItems statusField itemsPerFrame data results needed
      if r.2 then r.1 else splitLoop statusField itemsPerFrame needed rest r.1

/-- Model of `splitFramesForData` (utils.go).  The result list models the Go map with
keys `1, 2, 3, ...` (position `p` holds key `p + 1`); values are the raw item
values (stored as exact `float64`s in Go). -/
def splitFramesForData (bms : DalyBMS) (frames : List (List Nat))
    (statusField : StatusField) (itemsPerFrame : Nat) : Option (List Int) :=
  match bms.latestStatus with
  | none => none
  | some st =>
    let needed : Int :=
      match statusField with
      | StatusField.cells => st.numberOfCells
      | StatusField.temperatureSensors => st.numberOfTemperatureSensors
    some (splitLoop statusField itemsPerFrame needed frames [])

/-- The items contributed by the bytes of one page, claim-side reading: the
remaining bytes after the page index decoded as consecutive big-endian signed
fixed-width items (2-byte for cells, 1-byte for temperature sensors); a
trailing fragment shorter than the width yields no item. -/
def pageItems : StatusField → List Nat → List Int
  | StatusField.cells, hi :: lo :: rest => int16OfBytes hi lo :: pageItems StatusField.cells rest
  | StatusField.cells, _ => []
  | StatusField.temperatureSensors, b :: rest => int8OfByte b :: pageItems StatusField.temperatureSensors rest
  | StatusField.temperatureSensors, [] => []

/-- Claim-side reassembled series: walk the frames in reception order, skip
each frame's first byte, concatenate the items of the remaining bytes. -/
def reassembledSeries (statusField : StatusField) : List (List Nat) → List Int
  | [] => []
  | frame :: rest => pageItems statusField (frame.drop 1) ++ reassembledSeries statusField rest

/-- The per-frame item lists produced by the code's loops: as
`reassembledSeries` but empty frames contribute nothing and at most
`itemsPerFrame` items are taken per frame. -/
def codeSeries (statusField : StatusField) (itemsPerFrame : Nat) : List (List Nat) → List Int
  | [] => []
  | frame :: rest =>
    (match frame with
     | [] => []
     | _ :: data => (pageItems statusField data).take itemsPerFrame) ++
    codeSeries statusField itemsPerFrame rest

/-- Model of `buildRequestFrame` (utils.go) on the hex-digit level:
`"a5" + "%x" of the address + "0" + command + "08" + extraHex`, padded with
`'0'` characters to 24 hex digits, decoded to bytes, with the CRC appended.
The address is a single hex digit (the protocol uses 4 and 8).  The hex decode
of the Go code can only fail on a non-hex character, which the digit-level
model cannot represent, so the model is total. -/
def buildRequestFrame (address : Nat) (command : List Nat) (extraHex : List Nat) : List Nat :=
  let hexString := [10, 5, address, 0] ++ command ++ [0, 8] ++ extraHex
  let padded := hexString ++ List.replicate (24 - hexString.length) 0
  let rawBytes := decodeHexDigits padded
  rawBytes ++ [computeCRC rawBytes]

/-- The checksum check of `readSerialResponse` (utils.go):
`computeCRC(readBuffer[:12]) == readBuffer[12]`. -/
def checksumCheckPasses (readBuffer : List Nat) : Prop :=
  computeCRC (readBuffer.take 12) = readBuffer.getD 12 0

/-- The command check of `readSerialResponse`: characters 4..5 of the hex dump
of the 4 header bytes — i.e. the two hex digits of byte 2 — must equal the
(lowercase hex) command string. -/
def commandCheckPasses (readBuffer : List Nat) (command : List Nat) : Prop :=
  byteToHexDigits (readBuffer.getD 2 0) = command

/-- The value `readSerialResponse` hands back on success: the raw 8 data bytes
for a single frame, or a list of 8-byte frames. -/
inductive ReplyValue where
  | single : List Nat → ReplyValue
  | multi : List (List Nat) → ReplyValue
deriving DecidableEq

/-- Outcome of one `readSerialResponse` attempt, as seen by `sendReadRequest`:
an error, a nil result with nil error (no valid frame collected), or a
successful non-nil result.  Inspection of `readSerialResponse` shows these are
the only shapes it returns. -/
inductive ReadOutcome where
  | err : ReadOutcome
  | nilResp : ReadOutcome
  | ok : ReplyValue → ReadOutcome

def ReadOutcome.isSuccess : ReadOutcome → Bool
  | ReadOutcome.ok _ => true
  | _ => false

/-- Observable trace of one `sendReadRequest` call: the final result (`none`
models the "failed after N tries" error), the number of attempts made, and the
list of back-off sleeps taken, in milliseconds. -/
structure SendTrace where
  result : Option ReplyValue
  attempts : Nat
  backoffsMs : List Nat
deriving DecidableEq

/-- The attempt loop of `sendReadRequest` (utils.go): on a read error or a nil
result it sleeps 200ms and retries; on success it returns that attempt's data
at once. -/
def sendLoop (attempt : Nat → ReadOutcome) (attemptIndex : Nat) : Nat → SendTrace
  | 0 => SendTrace.mk none 0 []
  | Nat.succ remaining =>
    match attempt attemptIndex with
    | ReadOutcome.ok v => SendTrace.mk (some v) 1 []
    | _ =>
      let rest := sendLoop attempt (attemptIndex + 1) remaining
      SendTrace.mk rest.result (rest.attempts + 1) (200 :: rest.backoffsMs)

/-- Model of `sendReadRequest` (utils.go), with the transport behaviour abstracted as
the per-attempt outcome oracle `attempt`. -/
def sendReadRequest (attempt : Nat → ReadOutcome) (retries : Nat) : SendTrace :=
  sendLoop attempt 0 retries

/-- The cell loop of `GetBalancingStatus`: for each cell index, look up the
character `bitPosition = len(binaryString) - cellIndex` of the padded binary
string; a negative position breaks out of the loop. -/
def balancingLoop (binaryString : List Bool) : List Nat → List (Nat × Bool)
  | [] => []
  | cellIndex :: rest =>
    let bitPosition : Int := (binaryString.length : Int) - (cellIndex : Int)
    if bitPosition < 0 then []
    else (cellIndex, binaryString.getD bitPosition.toNat false) :: balancingLoop binaryString rest

/-- The decode step of `GetBalancingStatus` (internal/bms): response bytes to
one big-endian integer, to a binary string left-padded to at least 48 bits,
then cells `1..numberOfCells` read from the right.  The result list models the
Go map in cell order. -/
def balancingDecode (numberOfCells : Int) (responseBytes : List Nat) : List (Nat × Bool) :=
  let bigIntValue := bigEndianToUint64 responseBytes
  let minimal := binaryStringOf bigIntValue
  let binaryString := List.replicate (48 - minimal.length) false ++ minimal
  balancingLoop binaryString (List.range' 1 numberOfCells.toNat)

/-- Model of `GetBalancingStatus` (internal/bms): one exchange for command `97`; the
cell count falls back to 0 when no status is cached.  The second component
counts the `readSerialResponse` attempts made, i.e. the transport uses. -/
def GetBalancingStatus (bms : DalyBMS) (attempt : Nat → ReadOutcome) :
    Except String (List (Nat × Bool)) × Nat :=
  let tr := sendReadRequest attempt bms.requestRetries
  match tr.result with
  | none => (Except.error "command 97 failed", tr.attempts)
  | some (ReplyValue.multi _) => (Except.error "unexpected response type for get_balancing_status", tr.attempts)
  | some (ReplyValue.single responseBytes) =>
    let numberOfCells : Int :=
      match bms.latestStatus with
      | some st => st.numberOfCells
      | none => 0
    (Except.ok (balancingDecode numberOfCells responseBytes), tr.attempts)

/-- Model of `GetCellVoltages` (internal/bms): page count first (fails without a cached
status), then one exchange for command `95`, then reassembly and millivolt to
volt conversion.  Values are exact rationals standing for the Go `float64`s;
the second component counts transport attempts. -/
def GetCellVoltages (bms : DalyBMS) (attempt : Nat → ReadOutcome) :
    Except String (List (Nat × ℚ)) × Nat :=
  match calculateNumberOfResponses bms StatusField.cells 3 with
  | Except.error e => (Except.error e, 0)
  | Except.ok _maxResp =>
    let tr := sendReadRequest attempt bms.requestRetries
    match tr.result with
    | none => (Except.error "command 95 failed", tr.attempts)
    | some v =>
      let dataFrames := match v with
        | ReplyValue.multi fs => fs
        | ReplyValue.single f => [f]
      match splitFramesForData bms dataFrames StatusField.cells 3 with
      | none => (Except.error "getStatus must be called before retrieving cells", tr.attempts)
      | some vals =>
        (Except.ok ((List.range' 1 vals.length).zip (vals.map (fun millivolts => (millivolts : ℚ) / 1000))), tr.attempts)

/-- Model of `GetTemperatures` (internal/bms): like `GetCellVoltages` with command `96`,
7 one-byte items per frame, and the `raw - 40` conversion. -/
def GetTemperatures (bms : DalyBMS) (attempt : Nat → ReadOutcome) :
    Except String (List (Nat × ℚ)) × Nat :=
  match calculateNumberOfResponses bms StatusField.temperatureSensors 7 with
  | Except.error e => (Except.error e, 0)
  | Except.ok _maxResp =>
    let tr := sendReadRequest attempt bms.requestRetries
    match tr.result with
    | none => (Except.error "command 96 failed", tr.attempts)
    | some v =>
      let dataFrames := match v with
        | ReplyValue.multi fs => fs
        | ReplyValue.single f => [f]
      match splitFramesForData bms dataFrames StatusField.temperatureSensors 7 with
      | none => (Except.error "getStatus must be called before retrieving temperature_sensors", tr.attempts)
      | some vals =>
        (Except.ok ((List.range' 1 vals.length).zip (vals.map (fun rawValue => (rawValue : ℚ) - 40))), tr.attempts)

/-- Model of `Disconnect` (internal/bms): closes and nils the serial port.  No other
field of the client state is touched. -/
def Disconnect (bms : DalyBMS) : DalyBMS :=
  { bms with serialPortOpen := false }

/-- Truncation toward zero, as Go's `int(f)` conversion of a `float64`. -/
def truncateToInt (q : ℚ) : Int :=
  if q < 0 then Int.ceil q else Int.floor q

/-- The raw value computed by `SetSOC` (internal/bms): `int(socPercent * 10)`,
then capped above at 1000, then below at 0, in that order.  The multiplication
is exact here (`ℚ` instead of `float64`). -/
def setSOCRawValue (socPercent : ℚ) : Int :=
  let rawValue := truncateToInt (socPercent * 10)
  let capped := if rawValue > 1000 then 1000 else rawValue
  if capped < 0 then 0 else capped

/-- The four hex digits of `fmt.Sprintf "%04X"` for a value below 65536. -/
def hex4Digits (n : Nat) : List Nat :=
  [n / 4096 % 16, n / 256 % 16, n / 16 % 16, n % 16]

/-- The extra-payload hex string `"000000000000%04X"` that `SetSOC` sends. -/
def setSOCExtraHex (socPercent : ℚ) : List Nat :=
  List.replicate 12 0 ++ hex4Digits (setSOCRawValue socPercent).toNat

/-! ## Helper lemmas about the dispatcher loop -/

theorem sendLoop_all_fail (attempt : Nat → ReadOutcome) :
    ∀ (r idx : Nat),
      (∀ i, idx ≤ i → i < idx + r → (attempt i).isSuccess = false) →
      sendLoop attempt idx r = SendTrace.mk none r (List.replicate r 200) := by
  intro r
  induction r with
  | zero => intro idx _; rfl
  | succ n ih =>
    intro idx h
    have hfail : (attempt idx).isSuccess = false := h idx (Nat.le_refl idx) (by omega)
    have hrest : sendLoop attempt (idx + 1) n = SendTrace.mk none n (List.replicate n 200) := by
      apply ih
      intro i h1 h2
      exact h i (by omega) (by omega)
    cases hA : attempt idx with
    | ok v => rw [hA] at hfail; simp [ReadOutcome.isSuccess] at hfail
    | err => simp [sendLoop, hA, hrest, List.replicate_succ]
    | nilResp => simp [sendLoop, hA, hrest, List.replicate_succ]

theorem sendLoop_first_success (attempt : Nat → ReadOutcome) :
    ∀ (k idx r : Nat) (v : ReplyValue),
      k < r →
      (∀ i, i < k → (attempt (idx + i)).isSuccess = false) →
      attempt (idx + k) = ReadOutcome.ok v →
      sendLoop attempt idx r = SendTrace.mk (some v) (k + 1) (List.replicate k 200) := by
  intro k
  induction k with
  | zero =>
    intro idx r v hk _ hok
    match r, hk with
    | Nat.succ r2, _ =>
      rw [Nat.add_zero] at hok
      simp [sendLoop, hok]
  | succ n ih =>
    intro idx r v hk hfail hok
    match r, hk with
    | Nat.succ r2, hk =>
      have hfail0 : (attempt idx).isSuccess = false := by
        have := hfail 0 (Nat.succ_pos n)
        rwa [Nat.add_zero] at this
      have hrest : sendLoop attempt (idx + 1) r2 = SendTrace.mk (some v) (n + 1) (List.replicate n 200) := by
        apply ih (idx + 1) r2 v (by omega)
        · intro i hi
          have := hfail (i + 1) (by omega)
          rwa [show idx + (i + 1) = idx + 1 + i by omega] at this
        · rwa [show idx + 1 + n = idx + (n + 1) by omega]
      cases hA : attempt idx with
      | ok w => rw [hA] at hfail0; simp [ReadOutcome.isSuccess] at hfail0
      | err => simp [sendLoop, hA, hrest, List.replicate_succ]
      | nilResp => simp [sendLoop, hA, hrest, List.replicate_succ]

theorem sendLoop_attempts_pos (attempt : Nat → ReadOutcome) (idx r : Nat) (hr : 1 ≤ r) :
    1 ≤ (sendLoop attempt idx r).attempts := by
  match r, hr with
  | Nat.succ r2, _ =>
    cases hA : attempt idx <;> simp [sendLoop, hA]

/-- C1: for every exchange run by `sendReadRequest` with retry count `R ≥ 1`:
if every attempt fails (a read error or a nil result), the dispatcher returns
an error after exactly `R` attempts, with a 200ms backoff after each failed
attempt; if the first success is attempt `k + 1 ≤ R` (index `k`), it returns
exactly that attempt's data at once, after `k + 1` attempts and `k` backoffs. -/
theorem sendReadRequest_retry_policy (attempt : Nat → ReadOutcome) (retries : Nat)
    (hR : 1 ≤ retries) :
    ((∀ i, i < retries → (attempt i).isSuccess = false) →
      sendReadRequest attempt retries = SendTrace.mk none retries (List.replicate retries 200))
    ∧ (∀ k v, k < retries → (∀ i, i < k → (attempt i).isSuccess = false) →
        attempt k = ReadOutcome.ok v →
        sendReadRequest attempt retries = SendTrace.mk (some v) (k + 1) (List.replicate k 200)) := by
  constructor
  · intro h
    apply sendLoop_all_fail
    intro i h1 h2
    exact h i (by omega)
  · intro k v hk hfail hok
    apply sendLoop_first_success attempt k 0 retries v hk
    · intro i hi
      rw [Nat.zero_add]
      exact hfail i hi
    · rwa [Nat.zero_add]

theorem sendReadRequest_retry_policy_witness :
    (1 ≤ 3
      ∧ sendReadRequest (fun _ => ReadOutcome.err) 3 = SendTrace.mk none 3 [200, 200, 200])
    ∧ sendReadRequest
        (fun i => if i < 2 then ReadOutcome.nilResp else ReadOutcome.ok (ReplyValue.single [1, 2]))
        3 = SendTrace.mk (some (ReplyValue.single [1, 2])) 3 [200, 200] := by
  refine ⟨⟨by omega, ?_⟩, ?_⟩
  · have h := (sendReadRequest_retry_policy (fun _ => ReadOutcome.err) 3 (by omega)).1
      (fun i _ => by simp [ReadOutcome.isSuccess])
    rw [h]
    rfl
  · have h := (sendReadRequest_retry_policy
      (fun i => if i < 2 then ReadOutcome.nilResp else ReadOutcome.ok (ReplyValue.single [1, 2]))
      3 (by omega)).2 2 (ReplyValue.single [1, 2]) (by omega)
      (fun i hi => by simp [ReadOutcome.isSuccess, hi])
      (by simp)
    rw [h]
    rfl

/-! ## Claims about queries issued without a cached status -/

/-- C5: with no cached status (`latestStatus = nil`), `GetCellVoltages` and
`GetTemperatures` fail immediately — whatever the transport would have done —
and make zero transport accesses. -/
theorem paginated_queries_require_status (bms : DalyBMS) (attempt : Nat → ReadOutcome)
    (h : bms.latestStatus = none) :
    GetCellVoltages bms attempt
        = (Except.error "getStatus must be called before retrieving the field", 0)
    ∧ GetTemperatures bms attempt
        = (Except.error "getStatus must be called before retrieving the field", 0) := by
  constructor
  · simp [GetCellVoltages, calculateNumberOfResponses, h]
  · simp [GetTemperatures, calculateNumberOfResponses, h]

theorem paginated_queries_require_status_witness :
    (DalyBMS.mk true 3 4 none).latestStatus = none
    ∧ GetCellVoltages (DalyBMS.mk true 3 4 none) (fun _ => ReadOutcome.err)
        = (Except.error "getStatus must be called before retrieving the field", 0) :=
  ⟨rfl, (paginated_queries_require_status (DalyBMS.mk true 3 4 none)
    (fun _ => ReadOutcome.err) rfl).1⟩

/-- C6 counterexample: with no cached status, `GetBalancingStatus` does NOT
fail with a prerequisite error and DOES attempt a transport exchange: on a
transport that answers command `97` successfully it returns the empty map with
no error, after one transport attempt (the claim demands an immediate error
and zero transport attempts). -/
theorem getBalancingStatus_no_status_counterexample :
    GetBalancingStatus (DalyBMS.mk true 3 4 none)
        (fun _ => ReadOutcome.ok (ReplyValue.single [0, 0, 0, 0, 0, 0, 0, 5]))
      = (Except.ok [], 1) := by
  rfl

/-- C6 amended: with no cached status, `GetBalancingStatus` still runs the
exchange (at least one transport attempt whenever `retries ≥ 1`, and exactly
as many attempts as the dispatcher makes); when the exchange succeeds with a
single payload it returns the empty map — no cells decoded — with no error. -/
theorem getBalancingStatus_no_status_behavior (bms : DalyBMS) (attempt : Nat → ReadOutcome)
    (h : bms.latestStatus = none) :
    (GetBalancingStatus bms attempt).2 = (sendReadRequest attempt bms.requestRetries).attempts
    ∧ (1 ≤ bms.requestRetries → 1 ≤ (GetBalancingStatus bms attempt).2)
    ∧ (∀ responseBytes,
        (sendReadRequest attempt bms.requestRetries).result
            = some (ReplyValue.single responseBytes) →
        (GetBalancingStatus bms attempt).1 = Except.ok []) := by
  refine ⟨?_, ?_, ?_⟩
  · cases hres : (sendReadRequest attempt bms.requestRetries).result with
    | none => simp [GetBalancingStatus, hres]
    | some v => cases v <;> simp [GetBalancingStatus, hres]
  · intro hr
    have hpos := sendLoop_attempts_pos attempt 0 bms.requestRetries hr
    cases hres : (sendReadRequest attempt bms.requestRetries).result with
    | none => simpa [GetBalancingStatus, hres] using hpos
    | some v => cases v <;> simpa [GetBalancingStatus, hres] using hpos
  · intro responseBytes hres
    simp [GetBalancingStatus, hres, h, balancingDecode, balancingLoop]

theorem getBalancingStatus_no_status_behavior_witness :
    (DalyBMS.mk true 2 4 none).latestStatus = none
    ∧ (GetBalancingStatus (DalyBMS.mk true 2 4 none)
        (fun _ => ReadOutcome.ok (ReplyValue.single [1, 2, 3, 4, 5, 6, 7, 8]))).1 = Except.ok []
    ∧ 1 ≤ (GetBalancingStatus (DalyBMS.mk true 2 4 none)
        (fun _ => ReadOutcome.ok (ReplyValue.single [1, 2, 3, 4, 5, 6, 7, 8]))).2 := by
  have h := getBalancingStatus_no_status_behavior (DalyBMS.mk true 2 4 none)
    (fun _ => ReadOutcome.ok (ReplyValue.single [1, 2, 3, 4, 5, 6, 7, 8])) rfl
  exact ⟨rfl, h.2.2 [1, 2, 3, 4, 5, 6, 7, 8] rfl, h.2.1 (by decide)⟩

/-- C7 (code bug): `buildRequestFrame` does not reject an extra payload longer
than 8 bytes.  With the 9-byte extra payload `112233445566778899` it happily
returns a 14-byte frame — no `EncodingError` — although its own documentation
promises a 13-byte packet.  (In the model the hex decode, the only error path
the Go function has, cannot fail, so the function is total.) -/
theorem buildRequestFrame_oversized_payload :
    (buildRequestFrame 4 [9, 0] [1, 1, 2, 2, 3, 3, 4, 4, 5, 5, 6, 6, 7, 7, 8, 8, 9, 9]).length
      = 14 := by
  rfl

/-- C8 counterexample: `Disconnect` does NOT clear the cached latest status —
after disconnecting a client that has one, the cache is still there, so a
subsequent paginated query does not behave as if no status query had ever
succeeded. -/
theorem disconnect_keeps_status_counterexample :
    (Disconnect (DalyBMS.mk true 3 4 (some (StatusData.mk 4 1 false false [] 0)))).latestStatus
      ≠ none := by
  decide

/-- C8 amended: `Disconnect` tears down the connection (nils the serial port
handle) but leaves the cached latest status — and every other field of the
client — untouched; the cache persists until a later successful status query
overwrites it. -/
theorem disconnect_preserves_latestStatus (bms : DalyBMS) :
    (Disconnect bms).latestStatus = bms.latestStatus
    ∧ (Disconnect bms).serialPortOpen = false
    ∧ (Disconnect bms).requestRetries = bms.requestRetries
    ∧ (Disconnect bms).address = bms.address :=
  ⟨rfl, rfl, rfl, rfl⟩

/-! ## Helper lemmas about the checksum -/

theorem computeCRCFold_mod (l : List Nat) :
    ∀ s : Nat,
      (List.foldl (fun sum singleByte => (sum + singleByte % 256) % 4294967296) s l) % 256
        = (s + (l.map (fun b => b % 256)).sum) % 256 := by
  induction l with
  | nil => intro s; simp
  | cons b rest ih =>
    intro s
    have h1 : (s + b % 256) % 4294967296 % 256 = (s + b % 256) % 256 :=
      Nat.mod_mod_of_dvd _ (by norm_num)
    calc (List.foldl (fun sum singleByte => (sum + singleByte % 256) % 4294967296)
            ((s + b % 256) % 4294967296) rest) % 256
        = ((s + b % 256) % 4294967296 + (rest.map (fun x => x % 256)).sum) % 256 := ih _
      _ = ((s + b % 256) + (rest.map (fun x => x % 256)).sum) % 256 :=
          Nat.ModEq.add_right _ h1
      _ = (s + ((b :: rest).map (fun x => x % 256)).sum) % 256 := by
          simp [Nat.add_assoc]

theorem computeCRC_eq_sum_mod (message : List Nat) (h : ∀ b ∈ message, b < 256) :
    computeCRC message = message.sum % 256 := by
  have hmap : message.map (fun b => b % 256) = message := by
    have h2 : message.map (fun b => b % 256) = message.map id :=
      List.map_congr_left (fun b hb => Nat.mod_eq_of_lt (h b hb))
    rw [h2, List.map_id]
  have := computeCRCFold_mod message 0
  rw [hmap] at this
  simpa [computeCRC] using this

theorem list_sum_set : ∀ (l : List Nat) (i x : Nat), i < l.length →
    (l.set i x).sum + l.getD i 0 = l.sum + x
  | [], _, _, h => by simp at h
  | a :: rest, 0, x, _ => by simp [Nat.add_comm, Nat.add_left_comm]
  | a :: rest, Nat.succ i, x, h => by
    have ih := list_sum_set rest i x (by simpa using h)
    simp only [List.set_cons_succ, List.sum_cons, List.getD_cons_succ]
    omega

/-- C4: `computeCRC` is the low 8 bits of the unsigned byte sum, and for any
13-byte frame whose byte 12 is the checksum of bytes 0..11, replacing any one
byte among 0..11 by a different byte value changes the checksum, so the frame
fails the decoder's checksum check. -/
theorem computeCRC_detects_corruption (frame : List Nat) (i b2 : Nat)
    (hlen : frame.length = 13) (hbytes : ∀ b ∈ frame, b < 256)
    (hi : i < 12) (hb2 : b2 < 256) (hne : b2 ≠ frame.getD i 0)
    (hcrc : frame.getD 12 0 = computeCRC (frame.take 12)) :
    (∀ message, (∀ b ∈ message, b < 256) → computeCRC message = message.sum % 256)
    ∧ computeCRC ((frame.set i b2).take 12) ≠ frame.getD 12 0
    ∧ ¬ checksumCheckPasses (frame.set i b2) := by
  have hmsglen : (frame.take 12).length = 12 := by
    simp [hlen]
  have hmsgbytes : ∀ b ∈ frame.take 12, b < 256 := by
    intro b hb
    exact hbytes b (List.take_subset _ _ hb)
  have hset_take : (frame.set i b2).take 12 = (frame.take 12).set i b2 := List.set_take
  have hg_lt : (frame.take 12).getD i 0 < 256 := by
    rw [List.getD_eq_getElem _ _ (by omega)]
    exact hmsgbytes _ (List.getElem_mem _)
  have hsetbytes : ∀ b ∈ (frame.take 12).set i b2, b < 256 := by
    intro b hb
    rcases List.mem_or_eq_of_mem_set hb with hmem | heq
    · exact hmsgbytes b hmem
    · omega
  have hgi : frame.getD i 0 = (frame.take 12).getD i 0 := by
    rw [List.getD_eq_getElem?_getD, List.getD_eq_getElem?_getD, List.getElem?_take_of_lt hi]
  have hmain : computeCRC ((frame.take 12).set i b2) ≠ computeCRC (frame.take 12) := by
    rw [computeCRC_eq_sum_mod _ hsetbytes, computeCRC_eq_sum_mod _ hmsgbytes]
    have hss := list_sum_set (frame.take 12) i b2 (by omega)
    intro heq
    rw [hgi] at hne
    omega
  refine ⟨computeCRC_eq_sum_mod, ?_, ?_⟩
  · rw [hset_take, hcrc]
    exact hmain
  · intro hpass
    unfold checksumCheckPasses at hpass
    have hgd12 : (frame.set i b2).getD 12 0 = frame.getD 12 0 := by
      rw [List.getD_eq_getElem?_getD, List.getD_eq_getElem?_getD,
        List.getElem?_set_ne (by omega)]
    rw [hset_take, hgd12, hcrc] at hpass
    exact hmain hpass

theorem computeCRC_detects_corruption_witness :
    computeCRC (([165, 64, 144, 8, 0, 0, 0, 0, 0, 0, 0, 0, 125] : List Nat).set 4 7 |>.take 12)
        ≠ ([165, 64, 144, 8, 0, 0, 0, 0, 0, 0, 0, 0, 125] : List Nat).getD 12 0
    ∧ ¬ checksumCheckPasses (([165, 64, 144, 8, 0, 0, 0, 0, 0, 0, 0, 0, 125] : List Nat).set 4 7) := by
  have h := computeCRC_detects_corruption [165, 64, 144, 8, 0, 0, 0, 0, 0, 0, 0, 0, 125] 4 7
    (by decide) (by decide) (by decide) (by decide) (by decide) (by decide)
  exact ⟨h.2.1, h.2.2⟩

/-! ## Helper lemmas about hex decoding -/

theorem decodeHexDigits_append : ∀ (a b : List Nat), a.length % 2 = 0 →
    decodeHexDigits (a ++ b) = decodeHexDigits a ++ decodeHexDigits b
  | [], b, _ => by simp [decodeHexDigits]
  | [x], b, h => by simp at h
  | x :: y :: rest, b, h => by
    have hr : rest.length % 2 = 0 := by
      simp only [List.length_cons] at h
      omega
    have ih := decodeHexDigits_append rest b hr
    simp only [List.cons_append, decodeHexDigits]
    rw [List.cons_inj_right]
    exact ih

theorem decodeHexDigits_length : ∀ l : List Nat, (decodeHexDigits l).length = l.length / 2
  | [] => by simp [decodeHexDigits]
  | [x] => by simp [decodeHexDigits]
  | x :: y :: rest => by
    simp only [decodeHexDigits, List.length_cons]
    rw [decodeHexDigits_length rest]
    omega

theorem decodeHexDigits_replicate_zero : ∀ k : Nat,
    decodeHexDigits (List.replicate (2 * k) 0) = List.replicate k 0
  | 0 => rfl
  | Nat.succ k => by
    have h : 2 * (k + 1) = 2 * k + 1 + 1 := by omega
    rw [h, List.replicate_succ, List.replicate_succ, List.replicate_succ]
    simp [decodeHexDigits, decodeHexDigits_replicate_zero k]

/-- C3: encoding a two-hex-digit command with an even-length extra payload of
at most 16 hex digits yields a 13-byte frame that passes the decoder's
checksum check and command check, and whose payload (bytes 4..11) is the
extra-payload bytes zero-padded on the right to 8 bytes. -/
theorem buildRequestFrame_roundTrip (address c1 c2 : Nat) (extraHex : List Nat)
    (haddr : address < 16) (hc1 : c1 < 16) (hc2 : c2 < 16)
    (heven : extraHex.length % 2 = 0) (hlen : extraHex.length ≤ 16) :
    (buildRequestFrame address [c1, c2] extraHex).length = 13
    ∧ checksumCheckPasses (buildRequestFrame address [c1, c2] extraHex)
    ∧ commandCheckPasses (buildRequestFrame address [c1, c2] extraHex) [c1, c2]
    ∧ ((buildRequestFrame address [c1, c2] extraHex).drop 4).take 8
        = decodeHexDigits extraHex ++ List.replicate (8 - extraHex.length / 2) 0 := by
  have hPlen : (decodeHexDigits extraHex ++ List.replicate (8 - extraHex.length / 2) 0).length
      = 8 := by
    simp only [List.length_append, List.length_replicate, decodeHexDigits_length]
    omega
  have h1 : ([10, 5, address, 0] ++ [c1, c2] ++ [0, 8] ++ extraHex)
        ++ List.replicate (24 - ([10, 5, address, 0] ++ [c1, c2] ++ [0, 8] ++ extraHex).length) 0
      = [10, 5, address, 0, c1, c2, 0, 8] ++ (extraHex ++ List.replicate (16 - extraHex.length) 0) := by
    have hl : ([10, 5, address, 0] ++ [c1, c2] ++ [0, 8] ++ extraHex).length
        = 8 + extraHex.length := by
      simp only [List.length_append, List.length_cons, List.length_nil]
    rw [hl]
    have h24 : 24 - (8 + extraHex.length) = 16 - extraHex.length := by omega
    rw [h24]
    simp [List.append_assoc]
  have h2k : 16 - extraHex.length = 2 * (8 - extraHex.length / 2) := by omega
  have hraw : decodeHexDigits
        ([10, 5, address, 0, c1, c2, 0, 8] ++ (extraHex ++ List.replicate (16 - extraHex.length) 0))
      = [165, address * 16, c1 * 16 + c2, 8]
        ++ (decodeHexDigits extraHex ++ List.replicate (8 - extraHex.length / 2) 0) := by
    rw [decodeHexDigits_append _ _ (by simp), decodeHexDigits_append _ _ heven,
      h2k, decodeHexDigits_replicate_zero]
    simp [decodeHexDigits, Nat.mod_eq_of_lt haddr, Nat.mod_eq_of_lt hc1, Nat.mod_eq_of_lt hc2]
  have hframe : buildRequestFrame address [c1, c2] extraHex
      = ([165, address * 16, c1 * 16 + c2, 8]
          ++ (decodeHexDigits extraHex ++ List.replicate (8 - extraHex.length / 2) 0))
        ++ [computeCRC ([165, address * 16, c1 * 16 + c2, 8]
          ++ (decodeHexDigits extraHex ++ List.replicate (8 - extraHex.length / 2) 0))] := by
    simp only [buildRequestFrame]
    rw [h1, hraw]
  have hRawLen : ([165, address * 16, c1 * 16 + c2, 8]
      ++ (decodeHexDigits extraHex ++ List.replicate (8 - extraHex.length / 2) 0)).length = 12 := by
    simp only [List.length_append, List.length_replicate, decodeHexDigits_length,
      List.length_cons, List.length_nil]
    omega
  refine ⟨?_, ?_, ?_, ?_⟩
  · rw [hframe, List.length_append, hRawLen]
    rfl
  · unfold checksumCheckPasses
    rw [hframe, List.take_left' hRawLen,
      List.getD_append_right _ _ _ _ (by rw [hRawLen]), hRawLen]
    rfl
  · unfold commandCheckPasses byteToHexDigits
    rw [hframe]
    have hgd : (([165, address * 16, c1 * 16 + c2, 8]
        ++ (decodeHexDigits extraHex ++ List.replicate (8 - extraHex.length / 2) 0))
          ++ [computeCRC ([165, address * 16, c1 * 16 + c2, 8]
        ++ (decodeHexDigits extraHex ++ List.replicate (8 - extraHex.length / 2) 0))]).getD 2 0
        = c1 * 16 + c2 := by
      simp
    rw [hgd]
    have e1 : (c1 * 16 + c2) % 256 / 16 = c1 := by omega
    have e2 : (c1 * 16 + c2) % 16 = c2 := by omega
    rw [e1, e2]
  · rw [hframe, List.append_assoc]
    rw [List.drop_left' (show ([165, address * 16, c1 * 16 + c2, 8] : List Nat).length = 4 by rfl)]
    exact List.take_left' hPlen

theorem buildRequestFrame_roundTrip_witness :
    (buildRequestFrame 4 [9, 0] [0, 1, 0, 2]).length = 13
    ∧ checksumCheckPasses (buildRequestFrame 4 [9, 0] [0, 1, 0, 2])
    ∧ commandCheckPasses (buildRequestFrame 4 [9, 0] [0, 1, 0, 2]) [9, 0]
    ∧ ((buildRequestFrame 4 [9, 0] [0, 1, 0, 2]).drop 4).take 8
        = [1, 2, 0, 0, 0, 0, 0, 0] := by
  have h := buildRequestFrame_roundTrip 4 9 0 [0, 1, 0, 2]
    (by decide) (by decide) (by decide) (by decide) (by decide)
  refine ⟨h.1, h.2.1, h.2.2.1, ?_⟩
  rw [h.2.2.2]
  rfl

/-- C10: `SetSOC` encodes `int(socPercent * 10)` clamped into `[0, 1000]`, and
the last two bytes of the request's extra payload hold exactly that raw value
big-endian — hence a value between 0 and 1000 for every input, also outside
`0..100`. -/
theorem setSOC_encodes_clamped_raw (socPercent : ℚ) :
    0 ≤ setSOCRawValue socPercent
    ∧ setSOCRawValue socPercent ≤ 1000
    ∧ setSOCRawValue socPercent = max 0 (min 1000 (truncateToInt (socPercent * 10)))
    ∧ decodeHexDigits (setSOCExtraHex socPercent)
        = [0, 0, 0, 0, 0, 0, (setSOCRawValue socPercent).toNat / 256,
            (setSOCRawValue socPercent).toNat % 256]
    ∧ (setSOCRawValue socPercent).toNat / 256 * 256 + (setSOCRawValue socPercent).toNat % 256
        = (setSOCRawValue socPercent).toNat := by
  have hb : 0 ≤ setSOCRawValue socPercent ∧ setSOCRawValue socPercent ≤ 1000
      ∧ setSOCRawValue socPercent = max 0 (min 1000 (truncateToInt (socPercent * 10))) := by
    simp only [setSOCRawValue]
    split_ifs <;> omega
  have hm : (setSOCRawValue socPercent).toNat ≤ 1000 := by omega
  refine ⟨hb.1, hb.2.1, hb.2.2, ?_, by omega⟩
  have hsplit : decodeHexDigits (setSOCExtraHex socPercent)
      = decodeHexDigits (List.replicate 12 0)
        ++ decodeHexDigits (hex4Digits (setSOCRawValue socPercent).toNat) := by
    apply decodeHexDigits_append
    simp
  rw [hsplit]
  have hz : decodeHexDigits (List.replicate 12 0) = [0, 0, 0, 0, 0, 0] := rfl
  rw [hz]
  simp only [hex4Digits, decodeHexDigits, List.cons_append, List.nil_append, List.cons.injEq,
    and_true, true_and, eq_self_iff_true]
  exact ⟨by omega, by omega⟩

/-! ## Helper lemmas about the balancing bit decode -/

theorem getD_replicate_false : ∀ (n j : Nat), (List.replicate n false).getD j false = false
  | 0, _ => rfl
  | Nat.succ n, 0 => rfl
  | Nat.succ n, Nat.succ j => by
    rw [List.replicate_succ, List.getD_cons_succ]
    exact getD_replicate_false n j

theorem lsbBitsGo_getD : ∀ (fuel v j : Nat), v ≤ fuel →
    (lsbBitsGo fuel v).getD j false = decide ((v / 2 ^ j) % 2 = 1) := by
  intro fuel
  induction fuel with
  | zero =>
    intro v j hv
    have hv0 : v = 0 := by omega
    subst hv0
    simp [lsbBitsGo]
  | succ f ih =>
    intro v j hv
    by_cases hv0 : v = 0
    · subst hv0
      simp [lsbBitsGo]
    · cases j with
      | zero =>
        simp [lsbBitsGo, hv0, Nat.pow_zero, Nat.div_one]
      | succ j =>
        have hstep : (lsbBitsGo (Nat.succ f) v).getD (j + 1) false
            = (lsbBitsGo f (v / 2)).getD j false := by
          simp [lsbBitsGo, hv0]
        rw [hstep, ih (v / 2) j (by omega)]
        have hdiv : v / 2 / 2 ^ j = v / 2 ^ (j + 1) := by
          rw [Nat.div_div_eq_div_mul, pow_succ, Nat.mul_comm (2 ^ j) 2]
        rw [hdiv]

theorem lsbBitsGo_lt : ∀ (fuel v : Nat), v ≤ fuel → v < 2 ^ (lsbBitsGo fuel v).length := by
  intro fuel
  induction fuel with
  | zero =>
    intro v hv
    have hv0 : v = 0 := by omega
    subst hv0
    simp [lsbBitsGo]
  | succ f ih =>
    intro v hv
    by_cases hv0 : v = 0
    · subst hv0
      simp [lsbBitsGo]
    · have hlen : (lsbBitsGo (Nat.succ f) v).length = (lsbBitsGo f (v / 2)).length + 1 := by
        simp [lsbBitsGo, hv0]
      have ihv := ih (v / 2) (by omega)
      rw [hlen, pow_succ]
      omega

theorem padded_reverse_getD (v k j : Nat) :
    ((binaryStringOf v).reverse ++ List.replicate k false).getD j false
      = decide ((v / 2 ^ j) % 2 = 1) := by
  rcases Nat.eq_zero_or_pos v with hv | hv
  · subst hv
    have hbs : ((binaryStringOf 0).reverse ++ List.replicate k false : List Bool)
        = List.replicate (k + 1) false := by
      rw [List.replicate_succ]
      rfl
    rw [hbs, getD_replicate_false]
    simp
  · have hbs : (binaryStringOf v).reverse = lsbBits v := by
      unfold binaryStringOf
      rw [if_neg (by omega), List.reverse_reverse]
    rw [hbs]
    rcases lt_or_ge j (lsbBits v).length with hj | hj
    · rw [List.getD_append _ _ _ _ hj]
      exact lsbBitsGo_getD v v j (le_refl v)
    · rw [List.getD_append_right _ _ _ _ hj, getD_replicate_false]
      have hvlt : v < 2 ^ j := by
        have h1 : v < 2 ^ (lsbBits v).length := lsbBitsGo_lt v v (le_refl v)
        have h2 : 2 ^ (lsbBits v).length ≤ 2 ^ j := Nat.pow_le_pow_right (by norm_num) hj
        omega
      rw [Nat.div_eq_of_lt hvlt]
      simp

theorem balancingLoop_map (s : List Bool) : ∀ l : List Nat, (∀ i ∈ l, i ≤ s.length) →
    balancingLoop s l = l.map (fun i => (i, s.getD (s.length - i) false))
  | [], _ => rfl
  | i :: rest, h => by
    have hi : i ≤ s.length := h i (List.mem_cons_self i rest)
    have hrest := balancingLoop_map s rest (fun j hj => h j (List.mem_cons_of_mem i hj))
    have htn : (((s.length : Int) - (i : Int))).toNat = s.length - i := by omega
    simp only [balancingLoop]
    rw [if_neg (by omega), htn, hrest, List.map_cons]

theorem getD_sub_reverse (l : List Bool) (i : Nat) (h1 : 1 ≤ i) (h2 : i ≤ l.length) :
    l.getD (l.length - i) false = l.reverse.getD (i - 1) false := by
  rw [List.getD_eq_getElem?_getD, List.getD_eq_getElem?_getD,
    List.getElem?_reverse (by omega)]
  have hix : l.length - 1 - (i - 1) = l.length - i := by omega
  rw [hix]

theorem bigEndianFold_eq : ∀ (data : List Nat) (val : Nat),
    (∀ b ∈ data, b < 256) → data.length ≤ 8 → val < 2 ^ (64 - 8 * data.length) →
    bigEndianToUint64Fold val data = bigEndianValueFold val data := by
  intro data
  induction data with
  | nil => intro val _ _ _; rfl
  | cons b rest ih =>
    intro val hb hlen hval
    simp only [List.length_cons] at hlen hval
    have hb0 : b < 256 := hb b (List.mem_cons_self b rest)
    have hrest : ∀ x ∈ rest, x < 256 := fun x hx => hb x (List.mem_cons_of_mem b hx)
    have e1 : 64 - 8 * rest.length = (64 - 8 * (rest.length + 1)) + 8 := by omega
    have hval2 : val * 256 + b < 2 ^ (64 - 8 * rest.length) := by
      rw [e1, pow_add]
      have h28 : (2:Nat) ^ 8 = 256 := by norm_num
      rw [h28]
      omega
    have hmod : val * 256 % 18446744073709551616 = val * 256 := by
      apply Nat.mod_eq_of_lt
      have h64 : 2 ^ (64 - 8 * rest.length) ≤ 2 ^ 64 := Nat.pow_le_pow_right (by norm_num) (by omega)
      have h264 : (2:Nat) ^ 64 = 18446744073709551616 := by norm_num
      omega
    simp only [bigEndianToUint64Fold, bigEndianValueFold]
    rw [hmod, Nat.mod_eq_of_lt hb0]
    exact ih (val * 256 + b) hrest (by omega) hval2

theorem bigEndianToUint64_eq_value (data : List Nat)
    (hb : ∀ b ∈ data, b < 256) (hlen : data.length ≤ 8) :
    bigEndianToUint64 data = bigEndianValue data := by
  unfold bigEndianToUint64 bigEndianValue
  exact bigEndianFold_eq data 0 hb hlen (Nat.pos_pow_of_pos _ (by norm_num))

theorem binaryStringOf_length_pos (v : Nat) : 1 ≤ (binaryStringOf v).length := by
  unfold binaryStringOf
  split_ifs with hv
  · simp
  · rw [List.length_reverse]
    unfold lsbBits
    match v, hv with
    | Nat.succ w, _ => simp [lsbBitsGo]

/-- C9: with a cached status of `n` cells, `1 ≤ n ≤ 48`, and a successful
single-payload reply of 8 bytes, `GetBalancingStatus` maps each cell `i` in
`1..n` to `true` exactly when bit `i - 1` (the `i`-th least significant bit)
of the payload read as one big-endian unsigned integer is set. -/
theorem getBalancingStatus_bit_mapping (bms : DalyBMS) (attempt : Nat → ReadOutcome)
    (st : StatusData) (responseBytes : List Nat) (n : Nat)
    (hst : bms.latestStatus = some st) (hn : st.numberOfCells = (n : Int))
    (h1 : 1 ≤ n) (h48 : n ≤ 48)
    (hlen : responseBytes.length = 8) (hbytes : ∀ b ∈ responseBytes, b < 256)
    (hres : (sendReadRequest attempt bms.requestRetries).result
        = some (ReplyValue.single responseBytes)) :
    (GetBalancingStatus bms attempt).1
      = Except.ok ((List.range' 1 n).map
          (fun i => (i, decide ((bigEndianValue responseBytes / 2 ^ (i - 1)) % 2 = 1)))) := by
  have h9 : (GetBalancingStatus bms attempt).1
      = Except.ok (balancingDecode st.numberOfCells responseBytes) := by
    simp [GetBalancingStatus, hres, hst]
  rw [h9, hn]
  have hval : bigEndianToUint64 responseBytes = bigEndianValue responseBytes :=
    bigEndianToUint64_eq_value responseBytes hbytes (by omega)
  simp only [balancingDecode, hval]
  have htn : ((n : Int)).toNat = n := by omega
  rw [htn]
  have hm1 := binaryStringOf_length_pos (bigEndianValue responseBytes)
  have hslen : 48 ≤ (List.replicate (48 - (binaryStringOf (bigEndianValue responseBytes)).length) false
      ++ binaryStringOf (bigEndianValue responseBytes)).length := by
    rw [List.length_append, List.length_replicate]
    omega
  rw [balancingLoop_map _ _ (by
    intro i him
    have hb := List.mem_range'_1.mp him
    omega)]
  congr 1
  apply List.map_congr_left
  intro i him
  have hb := List.mem_range'_1.mp him
  have hgd := getD_sub_reverse
    (List.replicate (48 - (binaryStringOf (bigEndianValue responseBytes)).length) false
      ++ binaryStringOf (bigEndianValue responseBytes)) i (by omega) (by omega)
  rw [hgd, List.reverse_append, List.reverse_replicate, padded_reverse_getD]

theorem getBalancingStatus_bit_mapping_witness :
    (GetBalancingStatus (DalyBMS.mk true 1 4 (some (StatusData.mk 4 2 false false [] 0)))
        (fun _ => ReadOutcome.ok (ReplyValue.single [0, 0, 0, 0, 0, 0, 0, 5]))).1
      = Except.ok [(1, true), (2, false), (3, true), (4, false)] := by
  have h := getBalancingStatus_bit_mapping
    (DalyBMS.mk true 1 4 (some (StatusData.mk 4 2 false false [] 0)))
    (fun _ => ReadOutcome.ok (ReplyValue.single [0, 0, 0, 0, 0, 0, 0, 5]))
    (StatusData.mk 4 2 false false [] 0) [0, 0, 0, 0, 0, 0, 0, 5] 4
    rfl rfl (by decide) (by decide) (by decide) (by decide) rfl
  rw [h]
  rfl

/-! ## Helper lemmas about the page reassembler -/

theorem readItems_spec (statusField : StatusField) : ∀ (n : Nat) (data : List Nat)
    (acc : List Int) (needed : Int), (acc.length : Int) < needed →
    readItems statusField n data acc needed =
      (if ((acc.length : Int) + (((pageItems statusField data).take n).length : Int) < needed)
       then (acc ++ (pageItems statusField data).take n, false)
       else ((acc ++ (pageItems statusField data).take n).take needed.toNat, true)) := by
  intro n
  induction n with
  | zero =>
    intro data acc needed h
    rw [List.take_zero, if_pos (by simp only [List.length_nil]; push_cast; omega)]
    simp [readItems]
  | succ n ih =>
    intro data acc needed h
    cases statusField with
    | cells =>
      rcases data with _ | ⟨hi, _ | ⟨lo, rest⟩⟩
      · rw [show pageItems StatusField.cells [] = [] from rfl, List.take_nil,
          if_pos (by simp only [List.length_nil]; push_cast; omega)]
        simp [readItems]
      · rw [show pageItems StatusField.cells [hi] = [] from rfl, List.take_nil,
          if_pos (by simp only [List.length_nil]; push_cast; omega)]
        simp [readItems]
      · rw [show pageItems StatusField.cells (hi :: lo :: rest)
            = int16OfBytes hi lo :: pageItems StatusField.cells rest from rfl,
          List.take_succ_cons]
        by_cases hEq : ((acc.length : Int) + 1 = needed)
        · have hstep : readItems StatusField.cells (n + 1) (hi :: lo :: rest) acc needed
              = (acc ++ [int16OfBytes hi lo], true) := by
            simp only [readItems]
            rw [if_pos (by
              simp only [List.length_append, List.length_cons, List.length_nil]
              push_cast
              omega)]
          rw [hstep, if_neg (by
            simp only [List.length_cons]
            push_cast
            omega)]
          have hN : needed.toNat = acc.length + 1 := by omega
          rw [hN, List.take_append 1]
          rfl
        · have hlt : (((acc ++ [int16OfBytes hi lo]).length : Nat) : Int) < needed := by
            simp only [List.length_append, List.length_cons, List.length_nil]
            push_cast
            omega
          have hstep : readItems StatusField.cells (n + 1) (hi :: lo :: rest) acc needed
              = readItems StatusField.cells n rest (acc ++ [int16OfBytes hi lo]) needed := by
            simp only [readItems]
            rw [if_neg (by
              simp only [List.length_append, List.length_cons, List.length_nil]
              push_cast
              omega)]
          rw [hstep, ih rest (acc ++ [int16OfBytes hi lo]) needed hlt]
          rcases lt_or_ge ((acc.length : Int) + 1
              + (((pageItems StatusField.cells rest).take n).length : Int)) needed with hc | hc
          · rw [if_pos (by
                simp only [List.length_append, List.length_cons, List.length_nil]
                push_cast
                omega),
              if_pos (by
                simp only [List.length_cons]
                push_cast
                omega)]
            simp [List.append_assoc]
          · rw [if_neg (by
                simp only [List.length_append, List.length_cons, List.length_nil]
                push_cast
                omega),
              if_neg (by
                simp only [List.length_cons]
                push_cast
                omega)]
            simp [List.append_assoc]
    | temperatureSensors =>
      rcases data with _ | ⟨b, rest⟩
      · rw [show pageItems StatusField.temperatureSensors [] = [] from rfl, List.take_nil,
          if_pos (by simp only [List.length_nil]; push_cast; omega)]
        simp [readItems]
      · rw [show pageItems StatusField.temperatureSensors (b :: rest)
            = int8OfByte b :: pageItems StatusField.temperatureSensors rest from rfl,
          List.take_succ_cons]
        by_cases hEq : ((acc.length : Int) + 1 = needed)
        · have hstep : readItems StatusField.temperatureSensors (n + 1) (b :: rest) acc needed
              = (acc ++ [int8OfByte b], true) := by
            simp only [readItems]
            rw [if_pos (by
              simp only [List.length_append, List.length_cons, List.length_nil]
              push_cast
              omega)]
          rw [hstep, if_neg (by
            simp only [List.length_cons]
            push_cast
            omega)]
          have hN : needed.toNat = acc.length + 1 := by omega
          rw [hN, List.take_append 1]
          rfl
        · have hlt : (((acc ++ [int8OfByte b]).length : Nat) : Int) < needed := by
            simp only [List.length_append, List.length_cons, List.length_nil]
            push_cast
            omega
          have hstep : readItems StatusField.temperatureSensors (n + 1) (b :: rest) acc needed
              = readItems StatusField.temperatureSensors n rest (acc ++ [int8OfByte b]) needed := by
            simp only [readItems]
            rw [if_neg (by
              simp only [List.length_append, List.length_cons, List.length_nil]
              push_cast
              omega)]
          rw [hstep, ih rest (acc ++ [int8OfByte b]) needed hlt]
          rcases lt_or_ge ((acc.length : Int) + 1
              + (((pageItems StatusField.temperatureSensors rest).take n).length : Int)) needed with hc | hc
          · rw [if_pos (by
                simp only [List.length_append, List.length_cons, List.length_nil]
                push_cast
                omega),
              if_pos (by
                simp only [List.length_cons]
                push_cast
                omega)]
            simp [List.append_assoc]
          · rw [if_neg (by
                simp only [List.length_append, List.length_cons, List.length_nil]
                push_cast
                omega),
              if_neg (by
                simp only [List.length_cons]
                push_cast
                omega)]
            simp [List.append_assoc]

theorem splitLoop_cons_nonempty (statusField : StatusField) (itemsPerFrame : Nat) (needed : Int)
    (b : Nat) (data : List Nat) (rest : List (List Nat)) (acc : List Int) :
    splitLoop statusField itemsPerFrame needed ((b :: data) :: rest) acc
      = (let r := readItems statusField itemsPerFrame data acc needed
         if r.2 then r.1 else splitLoop statusField itemsPerFrame needed rest r.1) := rfl

theorem splitLoop_spec (statusField : StatusField) (itemsPerFrame : Nat) :
    ∀ (frames : List (List Nat)) (acc : List Int) (needed : Int),
    (acc.length : Int) < needed →
    splitLoop statusField itemsPerFrame needed frames acc =
      (if ((acc.length : Int) + ((codeSeries statusField itemsPerFrame frames).length : Int) < needed)
       then acc ++ codeSeries statusField itemsPerFrame frames
       else (acc ++ codeSeries statusField itemsPerFrame frames).take needed.toNat) := by
  intro frames
  induction frames with
  | nil =>
    intro acc needed h
    rw [show codeSeries statusField itemsPerFrame [] = [] from rfl,
      if_pos (by simp only [List.length_nil]; push_cast; omega)]
    simp [splitLoop]
  | cons frame rest ih =>
    intro acc needed h
    rcases frame with _ | ⟨b, data⟩
    · rw [show codeSeries statusField itemsPerFrame ([] :: rest)
          = codeSeries statusField itemsPerFrame rest from rfl]
      exact ih acc needed h
    · have hread := readItems_spec statusField itemsPerFrame data acc needed h
      rw [show codeSeries statusField itemsPerFrame ((b :: data) :: rest)
          = (pageItems statusField data).take itemsPerFrame
            ++ codeSeries statusField itemsPerFrame rest from rfl]
      rcases lt_or_ge ((acc.length : Int)
          + (((pageItems statusField data).take itemsPerFrame).length : Int)) needed with hc | hc
      · rw [if_pos hc] at hread
        rw [splitLoop_cons_nonempty, hread]
        show splitLoop statusField itemsPerFrame needed rest
            (acc ++ (pageItems statusField data).take itemsPerFrame) = _
        have hlen2 : (((acc ++ (pageItems statusField data).take itemsPerFrame).length : Nat) : Int)
            < needed := by
          simp only [List.length_append]
          push_cast
          omega
        rw [ih _ needed hlen2]
        rcases lt_or_ge ((acc.length : Int)
            + (((pageItems statusField data).take itemsPerFrame).length
              + (codeSeries statusField itemsPerFrame rest).length : Nat)) needed with hc2 | hc2
        · rw [if_pos (by
              simp only [List.length_append]
              push_cast
              omega),
            if_pos (by
              simp only [List.length_append]
              push_cast
              omega)]
          simp [List.append_assoc]
        · rw [if_neg (by
              simp only [List.length_append]
              push_cast
              omega),
            if_neg (by
              simp only [List.length_append]
              push_cast
              omega)]
          simp [List.append_assoc]
      · rw [if_neg (by omega)] at hread
        rw [splitLoop_cons_nonempty, hread]
        show (acc ++ (pageItems statusField data).take itemsPerFrame).take needed.toNat = _
        rw [if_neg (by
          simp only [List.length_append]
          push_cast
          omega)]
        have htk : (acc ++ ((pageItems statusField data).take itemsPerFrame
              ++ codeSeries statusField itemsPerFrame rest)).take needed.toNat
            = (acc ++ (pageItems statusField data).take itemsPerFrame).take needed.toNat := by
          rw [← List.append_assoc]
          exact List.take_append_of_le_length (by
            simp only [List.length_append]
            omega)
        rw [htk]

theorem pageItems_cells_length : ∀ data : List Nat,
    (pageItems StatusField.cells data).length = data.length / 2
  | [] => by
    rw [show pageItems StatusField.cells [] = [] from rfl]
    simp only [List.length_nil]
  | [x] => by
    rw [show pageItems StatusField.cells [x] = [] from rfl]
    simp only [List.length_nil, List.length_cons]
  | x :: y :: rest => by
    simp only [pageItems, List.length_cons]
    rw [pageItems_cells_length rest]
    omega

theorem pageItems_temperature_length : ∀ data : List Nat,
    (pageItems StatusField.temperatureSensors data).length = data.length
  | [] => rfl
  | b :: rest => by
    simp only [pageItems, List.length_cons]
    rw [pageItems_temperature_length rest]

theorem codeSeries_eq_reassembled_cells : ∀ frames : List (List Nat),
    (∀ f ∈ frames, f.length = 8) →
    codeSeries StatusField.cells 3 frames = reassembledSeries StatusField.cells frames
  | [], _ => rfl
  | f :: rest, h => by
    have hf : f.length = 8 := h f (List.mem_cons_self f rest)
    have hrest := codeSeries_eq_reassembled_cells rest
      (fun g hg => h g (List.mem_cons_of_mem f hg))
    rcases f with _ | ⟨b, data⟩
    · simp at hf
    · have hdata : data.length = 7 := by simpa using hf
      show (pageItems StatusField.cells data).take 3 ++ codeSeries StatusField.cells 3 rest
          = pageItems StatusField.cells data ++ reassembledSeries StatusField.cells rest
      rw [hrest, List.take_of_length_le (by rw [pageItems_cells_length, hdata])]

theorem codeSeries_eq_reassembled_temperature : ∀ frames : List (List Nat),
    (∀ f ∈ frames, f.length = 8) →
    codeSeries StatusField.temperatureSensors 7 frames
      = reassembledSeries StatusField.temperatureSensors frames
  | [], _ => rfl
  | f :: rest, h => by
    have hf : f.length = 8 := h f (List.mem_cons_self f rest)
    have hrest := codeSeries_eq_reassembled_temperature rest
      (fun g hg => h g (List.mem_cons_of_mem f hg))
    rcases f with _ | ⟨b, data⟩
    · simp at hf
    · have hdata : data.length = 7 := by simpa using hf
      show (pageItems StatusField.temperatureSensors data).take 7
            ++ codeSeries StatusField.temperatureSensors 7 rest
          = pageItems StatusField.temperatureSensors data
            ++ reassembledSeries StatusField.temperatureSensors rest
      rw [hrest, List.take_of_length_le (by rw [pageItems_temperature_length, hdata])]

/-- C2 counterexample: the stop check runs only after an item is appended, so
with a needed count of 0 (a cached status of 0 cells) the reassembler does not
"return the moment the output holds exactly N items" — it decodes every item
of the frame instead of returning an empty mapping. -/
theorem splitFramesForData_zero_needed_counterexample :
    splitFramesForData (DalyBMS.mk true 3 4 (some (StatusData.mk 0 0 false false [] 0)))
        [[1, 0, 10, 0, 20, 0, 30, 99]] StatusField.cells 3
      = some [10, 20, 30]
    ∧ some ([10, 20, 30] : List Int)
        ≠ some ((reassembledSeries StatusField.cells [[1, 0, 10, 0, 20, 0, 30, 99]]).take 0) := by
  constructor
  · rfl
  · decide

/-- C2 (amended: the needed item count `N` must be at least 1; with `N ≤ 0`
the reassembler never stops early and returns every decoded item): for reply
frames of 8 bytes, `splitFramesForData` walks frames in reception order, skips
each frame's first byte, decodes the remaining bytes as consecutive big-endian
signed fixed-width items under sequential keys, stops the moment `N` items
exist even if bytes or frames remain, and returns the shorter partial mapping
with no error when the frames run out first. -/
theorem splitFramesForData_reassembly (bms : DalyBMS) (st : StatusData)
    (frames : List (List Nat)) (hst : bms.latestStatus = some st)
    (hframes : ∀ f ∈ frames, f.length = 8) :
    (1 ≤ st.numberOfCells →
      splitFramesForData bms frames StatusField.cells 3
        = some ((reassembledSeries StatusField.cells frames).take st.numberOfCells.toNat))
    ∧ (1 ≤ st.numberOfTemperatureSensors →
      splitFramesForData bms frames StatusField.temperatureSensors 7
        = some ((reassembledSeries StatusField.temperatureSensors frames).take
            st.numberOfTemperatureSensors.toNat)) := by
  constructor
  · intro hN
    have hsf : splitFramesForData bms frames StatusField.cells 3
        = some (splitLoop StatusField.cells 3 st.numberOfCells frames []) := by
      simp [splitFramesForData, hst]
    have hloop := splitLoop_spec StatusField.cells 3 frames [] st.numberOfCells
      (by simp only [List.length_nil]; push_cast; omega)
    rw [codeSeries_eq_reassembled_cells frames hframes] at hloop
    simp only [List.nil_append] at hloop
    rw [hsf, hloop]
    rcases lt_or_ge ((reassembledSeries StatusField.cells frames).length : Int)
        st.numberOfCells with hc | hc
    · rw [if_pos (by simp only [List.length_nil]; push_cast; omega),
        List.take_of_length_le (by omega)]
    · rw [if_neg (by simp only [List.length_nil]; push_cast; omega)]
  · intro hN
    have hsf : splitFramesForData bms frames StatusField.temperatureSensors 7
        = some (splitLoop StatusField.temperatureSensors 7 st.numberOfTemperatureSensors frames []) := by
      simp [splitFramesForData, hst]
    have hloop := splitLoop_spec StatusField.temperatureSensors 7 frames []
      st.numberOfTemperatureSensors (by simp only [List.length_nil]; push_cast; omega)
    rw [codeSeries_eq_reassembled_temperature frames hframes] at hloop
    simp only [List.nil_append] at hloop
    rw [hsf, hloop]
    rcases lt_or_ge ((reassembledSeries StatusField.temperatureSensors frames).length : Int)
        st.numberOfTemperatureSensors with hc | hc
    · rw [if_pos (by simp only [List.length_nil]; push_cast; omega),
        List.take_of_length_le (by omega)]
    · rw [if_neg (by simp only [List.length_nil]; push_cast; omega)]

theorem splitFramesForData_reassembly_witness :
    splitFramesForData (DalyBMS.mk true 3 4 (some (StatusData.mk 5 2 false false [] 0)))
        [[1, 0, 10, 0, 20, 0, 30, 99], [2, 0, 40, 0, 50, 0, 60, 0]] StatusField.cells 3
      = some [10, 20, 30, 40, 50] := by
  have h := (splitFramesForData_reassembly
    (DalyBMS.mk true 3 4 (some (StatusData.mk 5 2 false false [] 0)))
    (StatusData.mk 5 2 false false [] 0)
    [[1, 0, 10, 0, 20, 0, 30, 99], [2, 0, 40, 0, 50, 0, 60, 0]]
    rfl (by decide)).1 (by decide)
  rw [h]
  rfl
